import Mathlib

/-!
Verification of the pgen2 parser engine (`pgen2/parse.py`), a table-driven
pushdown automaton over grammar DFA tables.

Shallow embedding notes:
* Python machine integers are modeled as `Nat` (no overflow is relevant here).
* The grammar tables (`dfas`, `labels`) are Python dict/list lookups; they are
  modeled as total functions / `List.getD`.  An out-of-range lookup, which
  would crash CPython on a malformed table, is thus modeled as returning a
  default; none of the verified properties exercise that region.
* The opaque token payload (`opaque` in the source) is modeled as a `Nat`
  named `opq`; it is only carried around, never inspected.
* `addtoken` contains a `while True` retry loop whose termination depends on
  the grammar; it is modeled with an explicit fuel counter, one unit of fuel
  per iteration of the outer loop.  `AddRes.timeout` marks fuel exhaustion.
* A Python `AssertionError` (the `assert t < 256` in `addtoken`) is modeled
  as `AddRes.assertFail`; an `IndexError` from `self.stack[-1]` on an empty
  stack is modeled as `AddRes.stuck`.  Both are distinct from `ParseError`.
-/

namespace Pgen2

/-- An arc of a grammar DFA state: `(label id, next state)`. -/
abbrev Arc := Nat × Nat

/-- A grammar DFA: the pair `(states, first)` stored in `grammar.dfas[t]`.
`states` is the list of states, each an ordered list of arcs; `first` is the
first set of label ids (a dict in Python, used only for membership). -/
structure DFA where
  states : List (List Arc)
  first : List Nat
deriving DecidableEq

/-- The grammar tables consumed by the engine: `dfas` maps a nonterminal id to
its DFA, `labels` maps a label id to a token type (< 256) or nonterminal id
(>= 256), `start` is the default start symbol. -/
structure Grammar where
  dfas : Nat → DFA
  labels : Nat → Nat
  start : Nat

/-- Model of `PNode` from `parse.py`: node type, opaque token payload (`None` for nodes
made by `setup`), and children — `none` for a token leaf, `some l` for a
nonterminal node. -/
inductive PNode where
  | mk (typ : Nat) (tok : Option Nat) (children : Option (List PNode))

def PNode.typ : PNode → Nat
  | .mk t _ _ => t

def PNode.tok : PNode → Option Nat
  | .mk _ tk _ => tk

def PNode.children : PNode → Option (List PNode)
  | .mk _ _ ch => ch

/-- Append a child node, as `node.children.append(newnode)`.  Engine-created nonterminal nodes always
have `some` children; on a token leaf (children `none`, where CPython would
crash) this models the append as starting from `[]` — that case is unreachable
from `setup`. -/
def PNode.appendChild : PNode → PNode → PNode
  | .mk t tk ch, c => .mk t tk (some (ch.getD [] ++ [c]))

/-- A stack entry `(dfa, state, node)`. -/
abbrev Frame := DFA × Nat × PNode

/-- The conversion callback: Python `convert(grammar, node)` returning a node
or `None` (the discard signal). -/
abbrev Convert := Grammar → PNode → Option PNode

/-- The default callback `lambda grammar, node: node`: identity, never
discards. -/
def idConvert : Convert := fun _ n => some n

/-- A callback that discards every node (always returns `None`). -/
def noneConvert : Convert := fun _ _ => none

/-- The mutable state of a `Parser`: the frame stack (head = top, i.e. Python
`stack[-1]`) and `rootnode`. -/
structure PState where
  stack : List Frame
  rootnode : Option PNode

/-- The `ParseError` exception payload: message, token type, opaque payload. -/
structure ParseError where
  msg : String
  typ : Nat
  opq : Nat
deriving DecidableEq

/-- Outcome of one `addtoken` call.  `ok done s` is a normal return carrying
the boolean result, `err` a raised `ParseError`, `assertFail` a failed
`assert t < 256`, `stuck` an `IndexError` on an empty stack, `timeout` fuel
exhaustion of the modeled retry loop. -/
inductive AddRes where
  | ok (done : Bool) (s : PState)
  | err (e : ParseError) (s : PState)
  | assertFail (s : PState)
  | stuck (s : PState)
  | timeout

/-- Model of `Parser.setup`: overwrite the whole mutable state with a single frame for
the start symbol (defaulting to `grammar.start`) and clear `rootnode`.  The
previous state `prev` is ignored, exactly as the method overwrites
`self.stack` and `self.rootnode` wholesale. -/
def Parser.setup (g : Grammar) (prev : PState) (start : Option Nat) : PState :=
  let st := start.getD g.start
  let _ := prev
  { stack := [(g.dfas st, 0, PNode.mk st none (some []))], rootnode := none }

/-- Model of `Parser.shift`: build a leaf for the consumed token, pass it through the
callback, append it to the top frame's node unless discarded, and move the top
frame to `newstate`.  (Called only on a non-empty stack.) -/
def Parser.shift (g : Grammar) (c : Convert) (typ opq newstate : Nat) :
    List Frame → List Frame
  | [] => []
  | (dfa, _, node) :: rest =>
    match c g (PNode.mk typ (some opq) none) with
    | some n => (dfa, newstate, node.appendChild n) :: rest
    | none => (dfa, newstate, node) :: rest

/-- Model of `Parser.push`: record the resume state on the current top frame and push a
fresh frame for nonterminal `typ` at state 0.  (Called only on a non-empty
stack.) -/
def Parser.push (typ opq : Nat) (newdfa : DFA) (newstate : Nat) :
    List Frame → List Frame
  | [] => []
  | (dfa, _, node) :: rest =>
    (newdfa, 0, PNode.mk typ (some opq) (some [])) :: (dfa, newstate, node) :: rest

/-- Model of `Parser.pop`: remove the top frame `fr` (given with the remaining stack
`rest` and current `rootnode`), convert its node; a non-`None` result becomes
the new root if the stack is now empty and is appended to the new top frame's
node otherwise; a `None` result attaches nothing.  Returns the new stack and
the new `rootnode`. -/
def Parser.pop (g : Grammar) (c : Convert) (fr : Frame) (rest : List Frame)
    (root : Option PNode) : List Frame × Option PNode :=
  match c g fr.2.2 with
  | none => (rest, root)
  | some v =>
    match rest with
    | [] => ([], some v)
    | (d, s, nd) :: tl => ((d, s, nd.appendChild v) :: tl, root)

/-- Test for `states[state] == [(0, state)]`: the state's only outgoing arc is the
self-loop accept arc, i.e. it is purely accepting. -/
def acceptOnly (dfa : DFA) (state : Nat) : Bool :=
  dfa.states.getD state [] = [(0, state)]

/-- Result of scanning the arcs of the current state for `ilabel`, mirroring
the `for ilab, newstate in arcs` loop of `addtoken`: the first arc whose label
equals `ilabel` yields a shift (or an assertion failure if the label table
maps it to a nonterminal); otherwise the first nonterminal arc whose first set
contains `ilabel` yields a push; otherwise no arc matches. -/
inductive ScanRes where
  | shift (newstate : Nat)
  | push (t : Nat) (newstate : Nat)
  | assertFail
  | nomatch
deriving DecidableEq

/-- The arc scan of `addtoken`'s inner `for` loop. -/
def scanArcs (g : Grammar) (arcs : List Arc) (ilabel : Nat) : ScanRes :=
  match arcs with
  | [] => .nomatch
  | (ilab, newstate) :: rest =>
    let t := g.labels ilab
    if ilabel = ilab then
      if t < 256 then .shift newstate else .assertFail
    else if 256 ≤ t then
      if ilabel ∈ (g.dfas t).first then .push t newstate
      else scanArcs g rest ilabel
    else scanArcs g rest ilabel

/-- The `while states[state] == [(0, state)]` loop that follows a shift: pop
frames while the top state is purely accepting; returns
`(done, stack, rootnode)` with `done = true` when the stack emptied.  The
`Nat` argument is a structural bound on the number of pops; it is always
called with the stack length, which suffices (each pop shortens the stack by
one), so the fuel-out branch is unreachable from `popAccepting`. -/
def popAcceptA (g : Grammar) (c : Convert) :
    Nat → List Frame → Option PNode → Bool × List Frame × Option PNode
  | _, [], root => (true, [], root)
  | 0, fr :: stk, root => (false, fr :: stk, root)
  | n + 1, (dfa, state, node) :: rest, root =>
    if acceptOnly dfa state then
      let r := Parser.pop g c (dfa, state, node) rest root
      popAcceptA g c n r.1 r.2
    else (false, (dfa, state, node) :: rest, root)

def popAccepting (g : Grammar) (c : Convert) (stk : List Frame)
    (root : Option PNode) : Bool × List Frame × Option PNode :=
  popAcceptA g c stk.length stk root

/-- Model of `Parser.addtoken(typ, opaque, ilabel)`: one call of the engine's main
entry point, with explicit fuel for the `while True` retry loop (one fuel per
iteration).  Mirrors `parse.py` lines 131–181: scan the top state's arcs;
shift on a token match (then pop purely-accepting states, returning `true`
iff the stack empties); push on a nonterminal whose first set contains the
label and retry; otherwise pop an accepting state and retry, raising
"too much input" if that pop empties the stack, or raise "bad input". -/
def Parser.addtoken (g : Grammar) (c : Convert) (typ opq ilabel : Nat) :
    Nat → PState → AddRes
  | 0, _ => .timeout
  | fuel + 1, s =>
    match s.stack with
    | [] => .stuck s
    | (dfa, state, node) :: rest =>
      let arcs := dfa.states.getD state []
      match scanArcs g arcs ilabel with
      | .shift newstate =>
        let stk1 := Parser.shift g c typ opq newstate ((dfa, state, node) :: rest)
        let r := popAccepting g c stk1 s.rootnode
        .ok r.1 ⟨r.2.1, r.2.2⟩
      | .push t newstate =>
        Parser.addtoken g c typ opq ilabel fuel
          ⟨Parser.push t opq (g.dfas t) newstate ((dfa, state, node) :: rest),
           s.rootnode⟩
      | .assertFail => .assertFail s
      | .nomatch =>
        if (0, state) ∈ arcs then
          let r := Parser.pop g c (dfa, state, node) rest s.rootnode
          if r.1.isEmpty then
            .err ⟨"too much input", typ, opq⟩ ⟨r.1, r.2⟩
          else
            Parser.addtoken g c typ opq ilabel fuel ⟨r.1, r.2⟩
        else
          .err ⟨"bad input", typ, opq⟩ s

/-- Outcome of feeding a whole token sequence: the list of booleans returned
by the successive `addtoken` calls, plus the final state (or the failure that
interrupted the run, with the flags collected so far). -/
inductive RunRes where
  | ok (flags : List Bool) (s : PState)
  | err (e : ParseError) (flags : List Bool) (s : PState)
  | assertFail (flags : List Bool) (s : PState)
  | stuck (flags : List Bool) (s : PState)
  | timeout (flags : List Bool)

/-- Feed a list of classified tokens `(typ, opq, ilabel)` one `addtoken` call
each (every call gets the same retry-loop fuel), collecting the returned
booleans. -/
def runTokens (g : Grammar) (c : Convert) (fuel : Nat) :
    List (Nat × Nat × Nat) → PState → RunRes
  | [], s => .ok [] s
  | (typ, opq, il) :: rest, s =>
    match Parser.addtoken g c typ opq il fuel s with
    | .ok done s' =>
      match runTokens g c fuel rest s' with
      | .ok flags s'' => .ok (done :: flags) s''
      | .err e flags s'' => .err e (done :: flags) s''
      | .assertFail flags s'' => .assertFail (done :: flags) s''
      | .stuck flags s'' => .stuck (done :: flags) s''
      | .timeout flags => .timeout (done :: flags)
    | .err e s' => .err e [] s'
    | .assertFail s' => .assertFail [] s'
    | .stuck s' => .stuck [] s'
    | .timeout => .timeout []

/-- A parser state for a fresh engine, before any `setup`: empty stack, no
root.  Used as the `prev` argument of `Parser.setup` for a newly constructed
parser. -/
def freshState : PState := ⟨[], none⟩

/-- The example grammar `S -> 'a' S 'b' | 'c'` with label ids 'a' = 1,
'b' = 2, 'c' = 3, label id 4 ↦ nonterminal S = 256.  DFA states:
0: a→1 | c→2;  1: S→3;  2: accept;  3: b→2. -/
def dfaS : DFA :=
  ⟨[[(1, 1), (3, 2)], [(4, 3)], [(0, 2)], [(2, 2)]], [1, 3]⟩

def gS : Grammar :=
  ⟨fun _ => dfaS, fun i => if i = 4 then 256 else i, 256⟩


/-- A fresh parser for `gS` after `setup()` with the default start symbol. -/
def stS : PState := Parser.setup gS freshState none

/-- The token sequence `[a, a, c, b, b]` classified for `gS`, with distinct
payloads 10..14 so the payload plumbing is visible in the tree. -/
def toksC1 : List (Nat × Nat × Nat) :=
  [(1, 10, 1), (1, 11, 1), (3, 12, 3), (2, 13, 2), (2, 14, 2)]

/-- The expected tree `S(a, S(a, S(c), b), b)`.  Nonterminal nodes pushed by
the engine carry the payload of the token that triggered the push; the
`setup` root carries none. -/
def treeC1 : PNode :=
  PNode.mk 256 none (some
    [PNode.mk 1 (some 10) none,
     PNode.mk 256 (some 11) (some
       [PNode.mk 1 (some 11) none,
        PNode.mk 256 (some 12) (some [PNode.mk 3 (some 12) none]),
        PNode.mk 2 (some 13) none]),
     PNode.mk 2 (some 14) none])

/-- Forget the nodes of a stack, keeping each frame's `(dfa, state)`.  The
control flow of `addtoken` depends only on this part of the stack. -/
def eraseStack (stk : List Frame) : List (DFA × Nat) :=
  stk.map fun fr => (fr.1, fr.2.1)


/-- The value `rootnode` takes when the frame holding `nd` is popped from a
singleton stack: the converted node if the callback kept it, the previous
`rootnode` if the callback discarded it. -/
def convertedOr (g : Grammar) (c : Convert) (nd : PNode)
    (root : Option PNode) : Option PNode :=
  match c g nd with
  | some v => some v
  | none => root


/-- The control part of an `addtoken` outcome: the constructor, the boolean
or error, and the `(dfa, state)` skeleton of the resulting stack — everything
except the tree nodes and the root. -/
inductive CtrlRes where
  | ok (done : Bool) (stk : List (DFA × Nat))
  | err (e : ParseError) (stk : List (DFA × Nat))
  | assertFail (stk : List (DFA × Nat))
  | stuck (stk : List (DFA × Nat))
  | timeout
deriving DecidableEq

def ctrl : AddRes → CtrlRes
  | .ok d s => .ok d (eraseStack s.stack)
  | .err e s => .err e (eraseStack s.stack)
  | .assertFail s => .assertFail (eraseStack s.stack)
  | .stuck s => .stuck (eraseStack s.stack)
  | .timeout => .timeout


/-! ### Further concrete grammars used as witnesses and counterexamples -/

/-- Grammar `S -> 'c' | 'c' 'd'` with labels 'c' = 3, 'd' = 4 (identity label
table).  After one `c`, state 1 accepts but still offers a `d` arc, so a
second `c` exercises the "too much input" path. -/
def dfaS2 : DFA := ⟨[[(3, 1)], [(4, 2), (0, 1)], [(0, 2)]], [3]⟩

def g2 : Grammar := ⟨fun _ => dfaS2, fun i => i, 256⟩

def st2 : PState := Parser.setup g2 freshState none

/-- A pathological grammar table: the single state of the only DFA carries a
nonterminal arc (label 4 ↦ 256) back to itself, and label 1 is in the first
set; `addtoken` with label 1 pushes this nonterminal forever. -/
def dfaA : DFA := ⟨[[(4, 0)]], [1]⟩

def gA : Grammar := ⟨fun _ => dfaA, fun i => if i = 4 then 256 else i, 256⟩

/-- Grammar `S -> T 'z'` / `T -> 'a' T | 'a'` with labels 'a' = 1, 'z' = 3,
label 5 ↦ nonterminal T = 257.  Feeding `n+1` copies of `a` builds a chain of
`n+2` frames, all of which the final `z` must pop in a single `addtoken`
call. -/
def dfaSz : DFA := ⟨[[(5, 1)], [(3, 2)], [(0, 2)]], [1]⟩

def dfaT : DFA := ⟨[[(1, 1)], [(5, 2), (0, 1)], [(0, 2)]], [1]⟩

def gT : Grammar :=
  ⟨fun t => if t = 257 then dfaT else dfaSz, fun i => if i = 5 then 257 else i, 256⟩

/-- Leaf for an `a` token with payload 0. -/
def aLeaf : PNode := PNode.mk 1 (some 0) none

/-- The node of a `T` frame that has consumed one `a`. -/
def tNode : PNode := PNode.mk 257 (some 0) (some [aLeaf])

/-- The bottom frame for `gT` after the `S -> T 'z'` production pushed `T`. -/
def sFrame : Frame := (dfaSz, 1, PNode.mk 256 none (some []))

/-- The parser state of `gT` after consuming `n + 1` copies of `a`: a `T`
frame in state 1 on top, `n` suspended `T` frames in state 2, and the `S`
frame waiting for `'z'`. -/
def stateT (n : Nat) : PState :=
  ⟨(dfaT, 1, tNode) :: (List.replicate n (dfaT, 2, tNode) ++ [sFrame]), none⟩

/-- The right-leaning chain `T(a, T(a, ..., T(a)))` with `k + 1` leaves. -/
def treeT : Nat → PNode
  | 0 => tNode
  | k + 1 => PNode.mk 257 (some 0) (some [aLeaf, treeT k])

/-- The full parse tree of `a^(n+1) z` under `gT`. -/
def rootT (n : Nat) : PNode :=
  PNode.mk 256 none (some [treeT n, PNode.mk 3 (some 0) none])

/-- Divergence of `addtoken` from state `s`: the retry loop never finishes, i.e.
every fuel bound is exhausted. -/
def addtokenDiverges (g : Grammar) (c : Convert) (t o il : Nat)
    (s : PState) : Prop :=
  ∀ fuel : Nat, Parser.addtoken g c t o il fuel s = .timeout


/-- Wrap `nd` in the nodes of `m` suspended `T` frames. -/
def wrapT : Nat → PNode → PNode
  | 0, nd => nd
  | m + 1, nd => wrapT m (PNode.mk 257 (some 0) (some [aLeaf, nd]))


/-- C1: for the grammar `S -> 'a' S 'b' | 'c'` (labels 'a'=1, 'b'=2, 'c'=3,
nonterminal S=256, start S), feeding the tokens `[a, a, c, b, b]` one
`addtoken` call each after `setup()` returns false on the first four calls
and true on the final `b`, and with the identity conversion callback the
resulting root node is the tree `S(a, S(a, S(c), b), b)`. -/
theorem c1_concrete_scenario :
    runTokens gS idConvert 3 toksC1 stS =
      .ok [false, false, false, false, true] ⟨[], some treeC1⟩ := rfl


/-! ### Helper lemmas about the stack operations -/

theorem eraseStack_nil_iff (stk : List Frame) :
    eraseStack stk = [] ↔ stk = [] := by
  cases stk <;> simp [eraseStack]

theorem pop_erase (g : Grammar) (c : Convert) (fr : Frame) (rest : List Frame)
    (root : Option PNode) :
    eraseStack (Parser.pop g c fr rest root).1 = eraseStack rest := by
  unfold Parser.pop
  cases c g fr.2.2 with
  | none => rfl
  | some v =>
    cases rest with
    | nil => rfl
    | cons hd tl => rcases hd with ⟨d, s, nd⟩; simp [eraseStack]

theorem pop_length (g : Grammar) (c : Convert) (fr : Frame) (rest : List Frame)
    (root : Option PNode) :
    (Parser.pop g c fr rest root).1.length = rest.length := by
  have h := congrArg List.length (pop_erase g c fr rest root)
  simpa [eraseStack] using h

theorem pop_nil_iff (g : Grammar) (c : Convert) (fr : Frame) (rest : List Frame)
    (root : Option PNode) :
    (Parser.pop g c fr rest root).1 = [] ↔ rest = [] := by
  constructor
  · intro h
    have := pop_length g c fr rest root
    rw [h] at this
    exact List.length_eq_zero.mp this.symm
  · intro h
    subst h
    unfold Parser.pop
    cases c g fr.2.2 <;> rfl

/-- Behaviour of the post-shift pop loop, for any fuel at least the stack
length (the loop is always entered with fuel exactly the stack length):
the boolean is true iff the resulting stack is empty, the resulting top frame
is not purely accepting, and the resulting stack's control part is a suffix of
the input's (only frames were popped). -/
theorem popAcceptA_spec (g : Grammar) (c : Convert) (n : Nat) :
    ∀ (stk : List Frame) (root : Option PNode), stk.length ≤ n →
      ((popAcceptA g c n stk root).1 = true ↔ (popAcceptA g c n stk root).2.1 = [])
      ∧ (∀ d s nd tl, (popAcceptA g c n stk root).2.1 = (d, s, nd) :: tl →
          acceptOnly d s = false)
      ∧ (eraseStack (popAcceptA g c n stk root).2.1).IsSuffix (eraseStack stk) := by
  induction n with
  | zero =>
    intro stk root h
    have : stk = [] := List.length_eq_zero.mp (Nat.le_zero.mp h)
    subst this
    simp [popAcceptA]
  | succ n ih =>
    intro stk root h
    rcases stk with _ | ⟨⟨dfa, state, node⟩, rest⟩
    · simp [popAcceptA]
    · by_cases hacc : acceptOnly dfa state
      · have hlen : (Parser.pop g c (dfa, state, node) rest root).1.length ≤ n := by
          rw [pop_length]
          simpa using Nat.lt_succ_iff.mp (Nat.lt_of_lt_of_le (Nat.lt_succ_self _) h)
        have hrec := ih (Parser.pop g c (dfa, state, node) rest root).1
          (Parser.pop g c (dfa, state, node) rest root).2 hlen
        have hred : popAcceptA g c (n + 1) ((dfa, state, node) :: rest) root =
            popAcceptA g c n (Parser.pop g c (dfa, state, node) rest root).1
              (Parser.pop g c (dfa, state, node) rest root).2 := by
          simp [popAcceptA, hacc]
        rw [hred]
        refine ⟨hrec.1, hrec.2.1, hrec.2.2.trans ?_⟩
        rw [pop_erase]
        simp only [eraseStack, List.map_cons]
        exact List.suffix_cons _ _
      · have hred : popAcceptA g c (n + 1) ((dfa, state, node) :: rest) root =
            (false, (dfa, state, node) :: rest, root) := by
          simp [popAcceptA, hacc]
        rw [hred]
        refine ⟨by simp, ?_, List.suffix_refl _⟩
        intro d s nd tl heq
        cases heq
        simpa using hacc


theorem pop_nil_root (g : Grammar) (c : Convert) (fr : Frame)
    (root : Option PNode) :
    Parser.pop g c fr [] root = ([], convertedOr g c fr.2.2 root) := by
  unfold Parser.pop convertedOr
  cases c g fr.2.2 <;> rfl

theorem pop_root_cons (g : Grammar) (c : Convert) (fr hd : Frame)
    (tl : List Frame) (root : Option PNode) :
    (Parser.pop g c fr (hd :: tl) root).2 = root := by
  unfold Parser.pop
  cases c g fr.2.2 with
  | none => rfl
  | some v => rcases hd with ⟨d, s, nd⟩; rfl

/-- When the post-shift pop loop empties a (nonempty) stack, the resulting
`rootnode` is the converted node of some popped frame, or the prior root if
that conversion discarded it. -/
theorem popAcceptA_root (g : Grammar) (c : Convert) (n : Nat) :
    ∀ (stk : List Frame) (root : Option PNode), stk.length ≤ n → stk ≠ [] →
      (popAcceptA g c n stk root).1 = true →
      ∃ nd, (popAcceptA g c n stk root).2.2 = convertedOr g c nd root := by
  induction n with
  | zero =>
    intro stk root h hne
    exact absurd (List.length_eq_zero.mp (Nat.le_zero.mp h)) hne
  | succ n ih =>
    intro stk root h hne
    rcases stk with _ | ⟨⟨dfa, state, node⟩, rest⟩
    · exact absurd rfl hne
    · by_cases hacc : acceptOnly dfa state
      · rcases hcv : c g node with _ | v
        · rcases rest with _ | ⟨hd, tl⟩
          · intro _
            refine ⟨node, ?_⟩
            simp [popAcceptA, hacc, Parser.pop, hcv, convertedOr]
          · have hred : popAcceptA g c (n + 1) ((dfa, state, node) :: hd :: tl) root =
                popAcceptA g c n (hd :: tl) root := by
              simp [popAcceptA, hacc, Parser.pop, hcv]
            rw [hred]
            exact ih (hd :: tl) root (by simpa using Nat.lt_succ_iff.mp h) (by simp)
        · rcases rest with _ | ⟨⟨d, s, nd⟩, tl⟩
          · intro _
            refine ⟨node, ?_⟩
            simp [popAcceptA, hacc, Parser.pop, hcv, convertedOr]
          · have hred : popAcceptA g c (n + 1)
                ((dfa, state, node) :: (d, s, nd) :: tl) root =
                popAcceptA g c n ((d, s, nd.appendChild v) :: tl) root := by
              simp [popAcceptA, hacc, Parser.pop, hcv]
            rw [hred]
            exact ih _ root (by simpa using Nat.lt_succ_iff.mp h) (by simp)
      · intro htrue
        have hred : popAcceptA g c (n + 1) ((dfa, state, node) :: rest) root =
            (false, (dfa, state, node) :: rest, root) := by
          simp [popAcceptA, hacc]
        rw [hred] at htrue
        simp at htrue

/-! ### Branch equations for `addtoken` -/

theorem addtoken_zero (g : Grammar) (c : Convert) (t o il : Nat) (s : PState) :
    Parser.addtoken g c t o il 0 s = .timeout := rfl

theorem addtoken_succ_nil (g : Grammar) (c : Convert) (t o il fuel : Nat)
    (root : Option PNode) :
    Parser.addtoken g c t o il (fuel + 1) ⟨[], root⟩ = .stuck ⟨[], root⟩ := rfl

theorem addtoken_shift (g : Grammar) (c : Convert) (t o il fuel : Nat)
    (dfa : DFA) (state : Nat) (node : PNode) (rest : List Frame)
    (root : Option PNode) (ns : Nat)
    (h : scanArcs g (dfa.states.getD state []) il = .shift ns) :
    Parser.addtoken g c t o il (fuel + 1) ⟨(dfa, state, node) :: rest, root⟩ =
      .ok (popAccepting g c (Parser.shift g c t o ns ((dfa, state, node) :: rest)) root).1
        ⟨(popAccepting g c (Parser.shift g c t o ns ((dfa, state, node) :: rest)) root).2.1,
         (popAccepting g c (Parser.shift g c t o ns ((dfa, state, node) :: rest)) root).2.2⟩ := by
  simp only [Parser.addtoken, h]

theorem addtoken_push (g : Grammar) (c : Convert) (t o il fuel : Nat)
    (dfa : DFA) (state : Nat) (node : PNode) (rest : List Frame)
    (root : Option PNode) (pt ns : Nat)
    (h : scanArcs g (dfa.states.getD state []) il = .push pt ns) :
    Parser.addtoken g c t o il (fuel + 1) ⟨(dfa, state, node) :: rest, root⟩ =
      Parser.addtoken g c t o il fuel
        ⟨Parser.push pt o (g.dfas pt) ns ((dfa, state, node) :: rest), root⟩ := by
  simp only [Parser.addtoken, h]

theorem addtoken_assert (g : Grammar) (c : Convert) (t o il fuel : Nat)
    (dfa : DFA) (state : Nat) (node : PNode) (rest : List Frame)
    (root : Option PNode)
    (h : scanArcs g (dfa.states.getD state []) il = .assertFail) :
    Parser.addtoken g c t o il (fuel + 1) ⟨(dfa, state, node) :: rest, root⟩ =
      .assertFail ⟨(dfa, state, node) :: rest, root⟩ := by
  simp only [Parser.addtoken, h]

theorem addtoken_nomatch_noacc (g : Grammar) (c : Convert) (t o il fuel : Nat)
    (dfa : DFA) (state : Nat) (node : PNode) (rest : List Frame)
    (root : Option PNode)
    (h : scanArcs g (dfa.states.getD state []) il = .nomatch)
    (hm : (0, state) ∉ dfa.states.getD state []) :
    Parser.addtoken g c t o il (fuel + 1) ⟨(dfa, state, node) :: rest, root⟩ =
      .err ⟨"bad input", t, o⟩ ⟨(dfa, state, node) :: rest, root⟩ := by
  simp only [Parser.addtoken, h]
  rw [if_neg hm]

theorem addtoken_nomatch_acc_nil (g : Grammar) (c : Convert) (t o il fuel : Nat)
    (dfa : DFA) (state : Nat) (node : PNode) (root : Option PNode)
    (h : scanArcs g (dfa.states.getD state []) il = .nomatch)
    (hm : (0, state) ∈ dfa.states.getD state []) :
    Parser.addtoken g c t o il (fuel + 1) ⟨[(dfa, state, node)], root⟩ =
      .err ⟨"too much input", t, o⟩ ⟨[], convertedOr g c node root⟩ := by
  have hpop := pop_nil_root g c (dfa, state, node) root
  simp only [Parser.addtoken, h]
  rw [if_pos hm, hpop]
  rfl

theorem addtoken_nomatch_acc_cons (g : Grammar) (c : Convert)
    (t o il fuel : Nat) (dfa : DFA) (state : Nat) (node : PNode)
    (hd : Frame) (tl : List Frame) (root : Option PNode)
    (h : scanArcs g (dfa.states.getD state []) il = .nomatch)
    (hm : (0, state) ∈ dfa.states.getD state []) :
    Parser.addtoken g c t o il (fuel + 1) ⟨(dfa, state, node) :: hd :: tl, root⟩ =
      Parser.addtoken g c t o il fuel
        ⟨(Parser.pop g c (dfa, state, node) (hd :: tl) root).1, root⟩ := by
  have hr2 := pop_root_cons g c (dfa, state, node) hd tl root
  have hne : (Parser.pop g c (dfa, state, node) (hd :: tl) root).1.isEmpty = false := by
    have := pop_length g c (dfa, state, node) (hd :: tl) root
    rcases hp : (Parser.pop g c (dfa, state, node) (hd :: tl) root).1 with _ | ⟨x, xs⟩
    · rw [hp] at this; simp at this
    · rfl
  simp only [Parser.addtoken, h]
  rw [if_pos hm, hr2]
  simp only [hne]
  rfl


/-! ### Global properties of `addtoken`, by induction on the retry loop -/

theorem shift_ne_nil (g : Grammar) (c : Convert) (t o ns : Nat) (fr : Frame)
    (rest : List Frame) : Parser.shift g c t o ns (fr :: rest) ≠ [] := by
  rcases fr with ⟨dfa, st, nd⟩
  unfold Parser.shift
  cases c g (PNode.mk t (some o) none) <;> simp

/-- A successful `addtoken` returns true exactly when its final stack is
empty, and the final top frame (if any) is never purely accepting. -/
theorem addtoken_ok_stack (g : Grammar) (c : Convert) (t o il : Nat) :
    ∀ (fuel : Nat) (s : PState) (done : Bool) (s' : PState),
      Parser.addtoken g c t o il fuel s = .ok done s' →
      (done = true ↔ s'.stack = []) ∧
      (∀ d st nd tl, s'.stack = (d, st, nd) :: tl → acceptOnly d st = false) := by
  intro fuel
  induction fuel with
  | zero => intro s done s' h; cases h
  | succ fuel ih =>
    intro s done s' h
    obtain ⟨stk, root⟩ := s
    rcases stk with _ | ⟨⟨dfa, state, node⟩, rest⟩
    · rw [addtoken_succ_nil] at h; cases h
    · rcases hscan : scanArcs g (dfa.states.getD state []) il with ns | ⟨pt, ns⟩ | _ | _
      · rw [addtoken_shift g c t o il fuel dfa state node rest root ns hscan] at h
        have hspec := popAcceptA_spec g c
          (Parser.shift g c t o ns ((dfa, state, node) :: rest)).length
          (Parser.shift g c t o ns ((dfa, state, node) :: rest)) root (Nat.le_refl _)
        injection h with h1 h2
        subst h1
        subst h2
        exact ⟨by simpa [popAccepting] using hspec.1,
               by simpa [popAccepting] using hspec.2.1⟩
      · rw [addtoken_push g c t o il fuel dfa state node rest root pt ns hscan] at h
        exact ih _ _ _ h
      · rw [addtoken_assert g c t o il fuel dfa state node rest root hscan] at h
        cases h
      · by_cases hm : (0, state) ∈ dfa.states.getD state []
        · rcases rest with _ | ⟨hd, tl⟩
          · rw [addtoken_nomatch_acc_nil g c t o il fuel dfa state node root hscan hm] at h
            cases h
          · rw [addtoken_nomatch_acc_cons g c t o il fuel dfa state node hd tl root hscan hm] at h
            exact ih _ _ _ h
        · rw [addtoken_nomatch_noacc g c t o il fuel dfa state node rest root hscan hm] at h
          cases h

/-- Every `ParseError` raised by `addtoken` is one of the two documented
kinds and carries the offending token's type and payload. -/
theorem addtoken_err_char (g : Grammar) (c : Convert) (t o il : Nat) :
    ∀ (fuel : Nat) (s : PState) (e : ParseError) (s' : PState),
      Parser.addtoken g c t o il fuel s = .err e s' →
      (e.msg = "bad input" ∨ e.msg = "too much input") ∧ e.typ = t ∧ e.opq = o := by
  intro fuel
  induction fuel with
  | zero => intro s e s' h; cases h
  | succ fuel ih =>
    intro s e s' h
    obtain ⟨stk, root⟩ := s
    rcases stk with _ | ⟨⟨dfa, state, node⟩, rest⟩
    · rw [addtoken_succ_nil] at h; cases h
    · rcases hscan : scanArcs g (dfa.states.getD state []) il with ns | ⟨pt, ns⟩ | _ | _
      · rw [addtoken_shift g c t o il fuel dfa state node rest root ns hscan] at h
        cases h
      · rw [addtoken_push g c t o il fuel dfa state node rest root pt ns hscan] at h
        exact ih _ _ _ h
      · rw [addtoken_assert g c t o il fuel dfa state node rest root hscan] at h
        cases h
      · by_cases hm : (0, state) ∈ dfa.states.getD state []
        · rcases rest with _ | ⟨hd, tl⟩
          · rw [addtoken_nomatch_acc_nil g c t o il fuel dfa state node root hscan hm] at h
            injection h with h1 h2
            subst h1
            exact ⟨Or.inr rfl, rfl, rfl⟩
          · rw [addtoken_nomatch_acc_cons g c t o il fuel dfa state node hd tl root hscan hm] at h
            exact ih _ _ _ h
        · rw [addtoken_nomatch_noacc g c t o il fuel dfa state node rest root hscan hm] at h
          injection h with h1 h2
          subst h1
          exact ⟨Or.inl rfl, rfl, rfl⟩

/-- When `addtoken` raises "too much input", the final pop has already
emptied the stack and stored the converted root (unless the callback
discarded it, in which case the previous `rootnode` survives). -/
theorem addtoken_toomuch_root (g : Grammar) (c : Convert) (t o il : Nat) :
    ∀ (fuel : Nat) (s : PState) (e : ParseError) (s' : PState),
      Parser.addtoken g c t o il fuel s = .err e s' →
      e.msg = "too much input" →
      s'.stack = [] ∧ ∃ nd, s'.rootnode = convertedOr g c nd s.rootnode := by
  intro fuel
  induction fuel with
  | zero => intro s e s' h; cases h
  | succ fuel ih =>
    intro s e s' h hmsg
    obtain ⟨stk, root⟩ := s
    rcases stk with _ | ⟨⟨dfa, state, node⟩, rest⟩
    · rw [addtoken_succ_nil] at h; cases h
    · rcases hscan : scanArcs g (dfa.states.getD state []) il with ns | ⟨pt, ns⟩ | _ | _
      · rw [addtoken_shift g c t o il fuel dfa state node rest root ns hscan] at h
        cases h
      · rw [addtoken_push g c t o il fuel dfa state node rest root pt ns hscan] at h
        exact ih ⟨Parser.push pt o (g.dfas pt) ns ((dfa, state, node) :: rest), root⟩ _ _ h hmsg
      · rw [addtoken_assert g c t o il fuel dfa state node rest root hscan] at h
        cases h
      · by_cases hm : (0, state) ∈ dfa.states.getD state []
        · rcases rest with _ | ⟨hd, tl⟩
          · rw [addtoken_nomatch_acc_nil g c t o il fuel dfa state node root hscan hm] at h
            injection h with h1 h2
            subst h2
            exact ⟨rfl, node, rfl⟩
          · rw [addtoken_nomatch_acc_cons g c t o il fuel dfa state node hd tl root hscan hm] at h
            exact ih ⟨(Parser.pop g c (dfa, state, node) (hd :: tl) root).1, root⟩ _ _ h hmsg
        · rw [addtoken_nomatch_noacc g c t o il fuel dfa state node rest root hscan hm] at h
          injection h with h1 h2
          subst h1
          have h2 : ("bad input" : String) = "too much input" := hmsg
          exact absurd h2 (by decide)

/-- When `addtoken` returns true, the final `rootnode` is the conversion of
the last popped node, or the previous `rootnode` if the callback discarded
it. -/
theorem addtoken_ok_true_root (g : Grammar) (c : Convert) (t o il : Nat) :
    ∀ (fuel : Nat) (s : PState) (s' : PState),
      Parser.addtoken g c t o il fuel s = .ok true s' →
      ∃ nd, s'.rootnode = convertedOr g c nd s.rootnode := by
  intro fuel
  induction fuel with
  | zero => intro s s' h; cases h
  | succ fuel ih =>
    intro s s' h
    obtain ⟨stk, root⟩ := s
    rcases stk with _ | ⟨⟨dfa, state, node⟩, rest⟩
    · rw [addtoken_succ_nil] at h; cases h
    · rcases hscan : scanArcs g (dfa.states.getD state []) il with ns | ⟨pt, ns⟩ | _ | _
      · rw [addtoken_shift g c t o il fuel dfa state node rest root ns hscan] at h
        injection h with h1 h2
        have hroot := popAcceptA_root g c
          (Parser.shift g c t o ns ((dfa, state, node) :: rest)).length
          (Parser.shift g c t o ns ((dfa, state, node) :: rest)) root (Nat.le_refl _)
          (shift_ne_nil g c t o ns _ rest) (by simpa [popAccepting] using h1)
        obtain ⟨nd, hnd⟩ := hroot
        refine ⟨nd, ?_⟩
        rw [← h2]
        simpa [popAccepting] using hnd
      · rw [addtoken_push g c t o il fuel dfa state node rest root pt ns hscan] at h
        exact ih ⟨Parser.push pt o (g.dfas pt) ns ((dfa, state, node) :: rest), root⟩ _ h
      · rw [addtoken_assert g c t o il fuel dfa state node rest root hscan] at h
        cases h
      · by_cases hm : (0, state) ∈ dfa.states.getD state []
        · rcases rest with _ | ⟨hd, tl⟩
          · rw [addtoken_nomatch_acc_nil g c t o il fuel dfa state node root hscan hm] at h
            cases h
          · rw [addtoken_nomatch_acc_cons g c t o il fuel dfa state node hd tl root hscan hm] at h
            exact ih ⟨(Parser.pop g c (dfa, state, node) (hd :: tl) root).1, root⟩ _ h
        · rw [addtoken_nomatch_noacc g c t o il fuel dfa state node rest root hscan hm] at h
          cases h


/-- The arc scan can only demand the assertion failure if the label table
maps the scanned label id to a nonterminal (value ≥ 256). -/
theorem scanArcs_assert_ge (g : Grammar) (il : Nat) :
    ∀ arcs : List Arc, scanArcs g arcs il = .assertFail → 256 ≤ g.labels il := by
  intro arcs
  induction arcs with
  | nil => intro h; cases h
  | cons a rest ih =>
    rcases a with ⟨ilab, ns⟩
    intro h
    rw [scanArcs] at h
    by_cases heq : il = ilab
    · subst heq
      simp only [if_pos rfl] at h
      by_cases hlt : g.labels il < 256
      · rw [if_pos hlt] at h; cases h
      · exact Nat.le_of_not_lt hlt
    · rw [if_neg heq] at h
      by_cases hge : 256 ≤ g.labels ilab
      · rw [if_pos hge] at h
        by_cases hmem : il ∈ (g.dfas (g.labels ilab)).first
        · rw [if_pos hmem] at h; cases h
        · rw [if_neg hmem] at h; exact ih h
      · rw [if_neg hge] at h; exact ih h

/-- If the passed label id denotes a token type (< 256), no arc scan in the
call can fail the `assert t < 256`. -/
theorem scanArcs_ne_assert (g : Grammar) (il : Nat) (hlt : g.labels il < 256)
    (arcs : List Arc) : scanArcs g arcs il ≠ .assertFail := fun h =>
  absurd (scanArcs_assert_ge g il arcs h) (Nat.not_le_of_lt hlt)

/-- Under the precondition that the caller's label id denotes a token type,
the assertion branch of `addtoken` is unreachable, whatever the grammar,
callback, state and fuel. -/
theorem addtoken_no_assert (g : Grammar) (c : Convert) (t o il : Nat)
    (hlt : g.labels il < 256) :
    ∀ (fuel : Nat) (s : PState) (s' : PState),
      Parser.addtoken g c t o il fuel s ≠ .assertFail s' := by
  intro fuel
  induction fuel with
  | zero => intro s s' h; cases h
  | succ fuel ih =>
    intro s s' h
    obtain ⟨stk, root⟩ := s
    rcases stk with _ | ⟨⟨dfa, state, node⟩, rest⟩
    · rw [addtoken_succ_nil] at h; cases h
    · rcases hscan : scanArcs g (dfa.states.getD state []) il with ns | ⟨pt, ns⟩ | _ | _
      · rw [addtoken_shift g c t o il fuel dfa state node rest root ns hscan] at h
        cases h
      · rw [addtoken_push g c t o il fuel dfa state node rest root pt ns hscan] at h
        exact ih _ _ h
      · exact absurd hscan (scanArcs_ne_assert g il hlt _)
      · by_cases hm : (0, state) ∈ dfa.states.getD state []
        · rcases rest with _ | ⟨hd, tl⟩
          · rw [addtoken_nomatch_acc_nil g c t o il fuel dfa state node root hscan hm] at h
            cases h
          · rw [addtoken_nomatch_acc_cons g c t o il fuel dfa state node hd tl root hscan hm] at h
            exact ih _ _ h
        · rw [addtoken_nomatch_noacc g c t o il fuel dfa state node rest root hscan hm] at h
          cases h

/-- Calling `addtoken` on an empty stack never returns normally: `self.stack[-1]`
raises (modeled as `stuck`), or the fuel is out. -/
theorem addtoken_nil_not_ok (g : Grammar) (c : Convert) (t o il fuel : Nat)
    (s : PState) (hnil : s.stack = []) (done : Bool) (s' : PState) :
    Parser.addtoken g c t o il fuel s ≠ .ok done s' := by
  obtain ⟨stk, root⟩ := s
  have hs : stk = [] := hnil
  subst hs
  cases fuel with
  | zero => intro h; cases h
  | succ fuel => rw [addtoken_succ_nil]; intro h; cases h

/-- In a run of `addtoken` calls that all return normally, only the flag of
the very last call can be true: a true return empties the stack, and any
further call on the empty stack fails instead of returning. -/
theorem runTokens_true_only_last (g : Grammar) (c : Convert) (fuel : Nat) :
    ∀ (toks : List (Nat × Nat × Nat)) (s : PState) (flags : List Bool)
      (s' : PState), runTokens g c fuel toks s = .ok flags s' →
      ∀ (i : Nat) (h : i + 1 < flags.length),
        flags.get ⟨i, Nat.lt_of_succ_lt h⟩ = false := by
  intro toks
  induction toks with
  | nil =>
    intro s flags s' h i hi
    cases h
    simp at hi
  | cons tk rest ih =>
    intro s flags s' h i hi
    rcases tk with ⟨typ, opq, il⟩
    rw [runTokens] at h
    rcases hadd : Parser.addtoken g c typ opq il fuel s with ⟨done, s1⟩ | ⟨e1, s1⟩ | s1 | s1 | _ <;>
      simp only [hadd] at h <;> try cases h
    rcases hrun : runTokens g c fuel rest s1 with ⟨flags1, s2⟩ | ⟨e2, flags2, s2⟩ | ⟨flags2, s2⟩ | ⟨flags2, s2⟩ | flags2 <;>
      simp only [hrun] at h <;> try cases h
    rcases rest with _ | ⟨⟨t2, o2, il2⟩, rest2⟩
    · rw [runTokens] at hrun
      cases hrun
      simp only [List.length_cons, List.length_nil] at hi
      omega
    · cases done with
      | false =>
        rcases i with _ | j
        · simp
        · have hlt : j + 1 < flags1.length := by
            simpa only [List.length_cons, Nat.add_lt_add_iff_right] using hi
          simpa only [List.get_cons_succ] using ih s1 flags1 _ hrun j hlt
      | true =>
        have hempty : s1.stack = [] :=
          ((addtoken_ok_stack g c typ opq il fuel s true s1 hadd).1).mp rfl
        rw [runTokens] at hrun
        rcases h2 : Parser.addtoken g c t2 o2 il2 fuel s1 with ⟨d2, s2'⟩ | ⟨e2, s2'⟩ | s2' | s2' | _ <;>
          simp only [h2] at hrun <;> try cases hrun
        exact absurd h2 (addtoken_nil_not_ok g c t2 o2 il2 fuel s1 hempty d2 s2')


/-! ### The control flow of `addtoken` does not depend on the callback -/

theorem erase_shift (g : Grammar) (c : Convert) (t o ns : Nat) (fr : Frame)
    (rest : List Frame) :
    eraseStack (Parser.shift g c t o ns (fr :: rest)) =
      (fr.1, ns) :: eraseStack rest := by
  rcases fr with ⟨dfa, st, nd⟩
  unfold Parser.shift
  cases c g (PNode.mk t (some o) none) <;> simp [eraseStack]

theorem erase_push (typ o : Nat) (newdfa : DFA) (ns : Nat) (fr : Frame)
    (rest : List Frame) :
    eraseStack (Parser.push typ o newdfa ns (fr :: rest)) =
      (newdfa, 0) :: (fr.1, ns) :: eraseStack rest := by
  rcases fr with ⟨dfa, st, nd⟩
  simp [Parser.push, eraseStack]

/-- The post-shift pop loop's boolean and stack skeleton depend only on the
stack skeleton, not on the nodes, the root or the callback. -/
theorem popAcceptA_congr (g : Grammar) (c1 c2 : Convert) :
    ∀ (n : Nat) (stk1 stk2 : List Frame) (r1 r2 : Option PNode),
      eraseStack stk1 = eraseStack stk2 →
      (popAcceptA g c1 n stk1 r1).1 = (popAcceptA g c2 n stk2 r2).1 ∧
      eraseStack (popAcceptA g c1 n stk1 r1).2.1 =
        eraseStack (popAcceptA g c2 n stk2 r2).2.1 := by
  intro n
  induction n with
  | zero =>
    intro stk1 stk2 r1 r2 he
    rcases stk1 with _ | ⟨fr1, rest1⟩ <;> rcases stk2 with _ | ⟨fr2, rest2⟩
    · exact ⟨rfl, rfl⟩
    · simp [eraseStack] at he
    · simp [eraseStack] at he
    · exact ⟨rfl, he⟩
  | succ n ih =>
    intro stk1 stk2 r1 r2 he
    rcases stk1 with _ | ⟨⟨dfa1, st1, nd1⟩, rest1⟩ <;>
      rcases stk2 with _ | ⟨⟨dfa2, st2, nd2⟩, rest2⟩
    · exact ⟨rfl, rfl⟩
    · simp [eraseStack] at he
    · simp [eraseStack] at he
    · simp only [eraseStack, List.map_cons, List.cons.injEq] at he
      obtain ⟨hhd, htl⟩ := he
      have hd1 : dfa1 = dfa2 := congrArg Prod.fst hhd
      have hs1 : st1 = st2 := congrArg Prod.snd hhd
      subst hd1
      subst hs1
      by_cases hacc : acceptOnly dfa1 st1
      · have h1 : popAcceptA g c1 (n + 1) ((dfa1, st1, nd1) :: rest1) r1 =
            popAcceptA g c1 n (Parser.pop g c1 (dfa1, st1, nd1) rest1 r1).1
              (Parser.pop g c1 (dfa1, st1, nd1) rest1 r1).2 := by
          simp [popAcceptA, hacc]
        have h2 : popAcceptA g c2 (n + 1) ((dfa1, st1, nd2) :: rest2) r2 =
            popAcceptA g c2 n (Parser.pop g c2 (dfa1, st1, nd2) rest2 r2).1
              (Parser.pop g c2 (dfa1, st1, nd2) rest2 r2).2 := by
          simp [popAcceptA, hacc]
        rw [h1, h2]
        exact ih _ _ _ _ (by rw [pop_erase, pop_erase]; exact htl)
      · have h1 : popAcceptA g c1 (n + 1) ((dfa1, st1, nd1) :: rest1) r1 =
            (false, (dfa1, st1, nd1) :: rest1, r1) := by
          simp [popAcceptA, hacc]
        have h2 : popAcceptA g c2 (n + 1) ((dfa1, st1, nd2) :: rest2) r2 =
            (false, (dfa1, st1, nd2) :: rest2, r2) := by
          simp [popAcceptA, hacc]
        rw [h1, h2]
        refine ⟨rfl, ?_⟩
        simp only [eraseStack, List.map_cons]
        rw [htl]

theorem erase_length_eq {stk1 stk2 : List Frame}
    (h : eraseStack stk1 = eraseStack stk2) : stk1.length = stk2.length := by
  have := congrArg List.length h
  simpa [eraseStack] using this

/-- Whether `addtoken` shifts, pushes, pops, errs or completes — and where —
depends only on the grammar, the label, the fuel and the stack skeleton; two
runs with different callbacks (hence different trees) have the same control
outcome. -/
theorem addtoken_ctrl_congr (g : Grammar) (c1 c2 : Convert) (t o il : Nat) :
    ∀ (fuel : Nat) (s1 s2 : PState),
      eraseStack s1.stack = eraseStack s2.stack →
      ctrl (Parser.addtoken g c1 t o il fuel s1) =
        ctrl (Parser.addtoken g c2 t o il fuel s2) := by
  intro fuel
  induction fuel with
  | zero => intro s1 s2 he; rfl
  | succ fuel ih =>
    intro s1 s2 he
    obtain ⟨stk1, r1⟩ := s1
    obtain ⟨stk2, r2⟩ := s2
    simp only at he
    rcases stk1 with _ | ⟨⟨dfa1, st1, nd1⟩, rest1⟩ <;>
      rcases stk2 with _ | ⟨⟨dfa2, st2, nd2⟩, rest2⟩
    · rfl
    · simp [eraseStack] at he
    · simp [eraseStack] at he
    · simp only [eraseStack, List.map_cons, List.cons.injEq] at he
      obtain ⟨hhd, htl⟩ := he
      have hd1 : dfa1 = dfa2 := congrArg Prod.fst hhd
      have hs1 : st1 = st2 := congrArg Prod.snd hhd
      subst hd1
      subst hs1
      rcases hscan : scanArcs g (dfa1.states.getD st1 []) il with ns | ⟨pt, ns⟩ | _ | _
      · rw [addtoken_shift g c1 t o il fuel dfa1 st1 nd1 rest1 r1 ns hscan,
            addtoken_shift g c2 t o il fuel dfa1 st1 nd2 rest2 r2 ns hscan]
        have heq : eraseStack (Parser.shift g c1 t o ns ((dfa1, st1, nd1) :: rest1)) =
            eraseStack (Parser.shift g c2 t o ns ((dfa1, st1, nd2) :: rest2)) := by
          rw [erase_shift, erase_shift]
          simpa [eraseStack] using htl
        have hlen : (Parser.shift g c1 t o ns ((dfa1, st1, nd1) :: rest1)).length =
            (Parser.shift g c2 t o ns ((dfa1, st1, nd2) :: rest2)).length :=
          erase_length_eq heq
        have hcong := popAcceptA_congr g c1 c2
          (Parser.shift g c1 t o ns ((dfa1, st1, nd1) :: rest1)).length
          (Parser.shift g c1 t o ns ((dfa1, st1, nd1) :: rest1))
          (Parser.shift g c2 t o ns ((dfa1, st1, nd2) :: rest2)) r1 r2 heq
        simp only [ctrl, popAccepting]
        rw [← hlen]
        exact congrArg₂ CtrlRes.ok hcong.1 hcong.2
      · rw [addtoken_push g c1 t o il fuel dfa1 st1 nd1 rest1 r1 pt ns hscan,
            addtoken_push g c2 t o il fuel dfa1 st1 nd2 rest2 r2 pt ns hscan]
        refine ih _ _ ?_
        simp only
        rw [erase_push, erase_push]
        simpa [eraseStack] using htl
      · rw [addtoken_assert g c1 t o il fuel dfa1 st1 nd1 rest1 r1 hscan,
            addtoken_assert g c2 t o il fuel dfa1 st1 nd2 rest2 r2 hscan]
        simp only [ctrl, eraseStack, List.map_cons]
        rw [htl]
      · by_cases hm : (0, st1) ∈ dfa1.states.getD st1 []
        · rcases rest1 with _ | ⟨hd1, tl1⟩ <;> rcases rest2 with _ | ⟨hd2, tl2⟩
          · rw [addtoken_nomatch_acc_nil g c1 t o il fuel dfa1 st1 nd1 r1 hscan hm,
                addtoken_nomatch_acc_nil g c2 t o il fuel dfa1 st1 nd2 r2 hscan hm]
            rfl
          · simp [eraseStack] at htl
          · simp [eraseStack] at htl
          · rw [addtoken_nomatch_acc_cons g c1 t o il fuel dfa1 st1 nd1 hd1 tl1 r1 hscan hm,
                addtoken_nomatch_acc_cons g c2 t o il fuel dfa1 st1 nd2 hd2 tl2 r2 hscan hm]
            refine ih _ _ ?_
            simp only
            rw [pop_erase, pop_erase]
            exact htl
        · rw [addtoken_nomatch_noacc g c1 t o il fuel dfa1 st1 nd1 rest1 r1 hscan hm,
              addtoken_nomatch_noacc g c2 t o il fuel dfa1 st1 nd2 rest2 r2 hscan hm]
          simp only [ctrl, eraseStack, List.map_cons]
          rw [htl]


/-! ### Claim theorems -/

/-- C2: whenever the arc scan of the top frame shifts the token, `addtoken`
returns normally after popping frames exactly while the top state's only arc
is the self-loop accept arc — the result is true iff those pops emptied the
stack, false otherwise (and the surviving top frame is not purely accepting;
the final stack is a popped suffix of the shifted stack).  Moreover, over any
error-free sequence of `addtoken` calls, only the very last call can return
true: every prior call returns false. -/
theorem c2_shift_pop_completion :
    (∀ (g : Grammar) (c : Convert) (t o il fuel : Nat) (dfa : DFA)
        (state : Nat) (node : PNode) (rest : List Frame) (root : Option PNode)
        (ns : Nat), scanArcs g (dfa.states.getD state []) il = .shift ns →
        ∃ (done : Bool) (stk' : List Frame) (root' : Option PNode),
          Parser.addtoken g c t o il (fuel + 1) ⟨(dfa, state, node) :: rest, root⟩ =
            .ok done ⟨stk', root'⟩
          ∧ (done = true ↔ stk' = [])
          ∧ (∀ d s nd tl, stk' = (d, s, nd) :: tl → acceptOnly d s = false)
          ∧ (eraseStack stk').IsSuffix
              (eraseStack (Parser.shift g c t o ns ((dfa, state, node) :: rest))))
    ∧ (∀ (g : Grammar) (c : Convert) (fuel : Nat) (toks : List (Nat × Nat × Nat))
        (s : PState) (flags : List Bool) (s' : PState),
        runTokens g c fuel toks s = .ok flags s' →
        ∀ (i : Nat) (h : i + 1 < flags.length),
          flags.get ⟨i, Nat.lt_of_succ_lt h⟩ = false) := by
  constructor
  · intro g c t o il fuel dfa state node rest root ns hscan
    refine ⟨_, _, _,
      addtoken_shift g c t o il fuel dfa state node rest root ns hscan, ?_, ?_, ?_⟩
    · exact (popAcceptA_spec g c
        (Parser.shift g c t o ns ((dfa, state, node) :: rest)).length
        (Parser.shift g c t o ns ((dfa, state, node) :: rest)) root
        (Nat.le_refl _)).1
    · exact (popAcceptA_spec g c
        (Parser.shift g c t o ns ((dfa, state, node) :: rest)).length
        (Parser.shift g c t o ns ((dfa, state, node) :: rest)) root
        (Nat.le_refl _)).2.1
    · exact (popAcceptA_spec g c
        (Parser.shift g c t o ns ((dfa, state, node) :: rest)).length
        (Parser.shift g c t o ns ((dfa, state, node) :: rest)) root
        (Nat.le_refl _)).2.2
  · exact runTokens_true_only_last

theorem c2_witness :
    (∃ (done : Bool) (stk' : List Frame) (root' : Option PNode),
      Parser.addtoken gS idConvert 2 14 2 1
          ⟨[(dfaS, 3, PNode.mk 256 none (some []))], none⟩ = .ok done ⟨stk', root'⟩
      ∧ (done = true ↔ stk' = [])
      ∧ (∀ d s nd tl, stk' = (d, s, nd) :: tl → acceptOnly d s = false)
      ∧ (eraseStack stk').IsSuffix
          (eraseStack (Parser.shift gS idConvert 2 14 2
            [(dfaS, 3, PNode.mk 256 none (some []))])))
    ∧ (∀ (i : Nat) (h : i + 1 < ([false, false, false, false, true] : List Bool).length),
        ([false, false, false, false, true] : List Bool).get ⟨i, Nat.lt_of_succ_lt h⟩ = false) :=
  ⟨c2_shift_pop_completion.1 gS idConvert 2 14 2 0 dfaS 3
      (PNode.mk 256 none (some [])) [] none 2 rfl,
   c2_shift_pop_completion.2 gS idConvert 3 toksC1 stS
      [false, false, false, false, true] ⟨[], some treeC1⟩ rfl⟩

/-- C3: the only parse errors `addtoken` raises are "bad input" and
"too much input", both carrying the offending token's type and payload; when
no arc matches, a state without the `(0, state)` accept marker raises
"bad input" at once, a state with the marker is popped and the label retried
against the new top frame, and a pop that empties the stack raises
"too much input". -/
theorem c3_error_semantics :
    (∀ (g : Grammar) (c : Convert) (t o il fuel : Nat) (s : PState)
        (e : ParseError) (s' : PState),
        Parser.addtoken g c t o il fuel s = .err e s' →
        (e.msg = "bad input" ∨ e.msg = "too much input") ∧ e.typ = t ∧ e.opq = o)
    ∧ (∀ (g : Grammar) (c : Convert) (t o il fuel : Nat) (dfa : DFA)
        (state : Nat) (node : PNode) (rest : List Frame) (root : Option PNode),
        scanArcs g (dfa.states.getD state []) il = .nomatch →
        (0, state) ∉ dfa.states.getD state [] →
        Parser.addtoken g c t o il (fuel + 1) ⟨(dfa, state, node) :: rest, root⟩ =
          .err ⟨"bad input", t, o⟩ ⟨(dfa, state, node) :: rest, root⟩)
    ∧ (∀ (g : Grammar) (c : Convert) (t o il fuel : Nat) (dfa : DFA)
        (state : Nat) (node : PNode) (root : Option PNode),
        scanArcs g (dfa.states.getD state []) il = .nomatch →
        (0, state) ∈ dfa.states.getD state [] →
        Parser.addtoken g c t o il (fuel + 1) ⟨[(dfa, state, node)], root⟩ =
          .err ⟨"too much input", t, o⟩ ⟨[], convertedOr g c node root⟩)
    ∧ (∀ (g : Grammar) (c : Convert) (t o il fuel : Nat) (dfa : DFA)
        (state : Nat) (node : PNode) (hd : Frame) (tl : List Frame)
        (root : Option PNode),
        scanArcs g (dfa.states.getD state []) il = .nomatch →
        (0, state) ∈ dfa.states.getD state [] →
        Parser.addtoken g c t o il (fuel + 1) ⟨(dfa, state, node) :: hd :: tl, root⟩ =
          Parser.addtoken g c t o il fuel
            ⟨(Parser.pop g c (dfa, state, node) (hd :: tl) root).1, root⟩) :=
  ⟨fun g c t o il fuel s e s' h => addtoken_err_char g c t o il fuel s e s' h,
   fun g c t o il fuel dfa state node rest root h hm =>
     addtoken_nomatch_noacc g c t o il fuel dfa state node rest root h hm,
   fun g c t o il fuel dfa state node root h hm =>
     addtoken_nomatch_acc_nil g c t o il fuel dfa state node root h hm,
   fun g c t o il fuel dfa state node hd tl root h hm =>
     addtoken_nomatch_acc_cons g c t o il fuel dfa state node hd tl root h hm⟩

theorem c3_witness :
    ((("too much input" : String) = "bad input" ∨
        ("too much input" : String) = "too much input")
      ∧ (3 : Nat) = 3 ∧ (1 : Nat) = 1)
    ∧ Parser.addtoken g2 idConvert 4 0 4 1 st2 =
        .err ⟨"bad input", 4, 0⟩ st2
    ∧ Parser.addtoken g2 idConvert 3 1 3 1
        ⟨[(dfaS2, 1, PNode.mk 256 none (some [PNode.mk 3 (some 0) none]))], none⟩ =
        .err ⟨"too much input", 3, 1⟩
          ⟨[], some (PNode.mk 256 none (some [PNode.mk 3 (some 0) none]))⟩
    ∧ Parser.addtoken g2 idConvert 3 1 3 1
        ⟨[(dfaS2, 1, PNode.mk 256 none (some [])), (dfaS2, 0, PNode.mk 256 none (some []))], none⟩ =
        Parser.addtoken g2 idConvert 3 1 3 0
          ⟨(Parser.pop g2 idConvert (dfaS2, 1, PNode.mk 256 none (some []))
              [(dfaS2, 0, PNode.mk 256 none (some []))] none).1, none⟩ :=
  ⟨c3_error_semantics.1 g2 idConvert 3 1 3 2
      ⟨[(dfaS2, 1, PNode.mk 256 none (some [PNode.mk 3 (some 0) none]))], none⟩
      ⟨"too much input", 3, 1⟩
      ⟨[], some (PNode.mk 256 none (some [PNode.mk 3 (some 0) none]))⟩ rfl,
   c3_error_semantics.2.1 g2 idConvert 4 0 4 0 dfaS2 0
      (PNode.mk 256 none (some [])) [] none rfl (by decide),
   c3_error_semantics.2.2.1 g2 idConvert 3 1 3 0 dfaS2 1
      (PNode.mk 256 none (some [PNode.mk 3 (some 0) none])) none rfl (by decide),
   c3_error_semantics.2.2.2 g2 idConvert 3 1 3 0 dfaS2 1
      (PNode.mk 256 none (some [])) (dfaS2, 0, PNode.mk 256 none (some [])) [] none
      rfl (by decide)⟩


/-- C4: every `pop` removes the top frame and converts its node; a kept
conversion becomes the final result when the stack emptied and is appended to
the new top frame's node's children otherwise; a discarded conversion
attaches nothing anywhere. -/
theorem c4_pop_semantics :
    ∀ (g : Grammar) (c : Convert) (fr : Frame) (rest : List Frame)
      (root : Option PNode),
      (Parser.pop g c fr rest root).1.length = rest.length
      ∧ (c g fr.2.2 = none → Parser.pop g c fr rest root = (rest, root))
      ∧ (∀ v, c g fr.2.2 = some v → rest = [] →
          Parser.pop g c fr rest root = ([], some v))
      ∧ (∀ v d s nd tl, c g fr.2.2 = some v → rest = (d, s, nd) :: tl →
          Parser.pop g c fr rest root = ((d, s, nd.appendChild v) :: tl, root)) := by
  intro g c fr rest root
  refine ⟨pop_length g c fr rest root, ?_, ?_, ?_⟩
  · intro h; unfold Parser.pop; rw [h]
  · intro v h hrest; subst hrest; unfold Parser.pop; rw [h]
  · intro v d s nd tl h hrest; subst hrest; unfold Parser.pop; rw [h]

theorem c4_witness :
    ((Parser.pop gS noneConvert (dfaS, 2, PNode.mk 256 none (some []))
        [(dfaS, 1, PNode.mk 256 none (some []))] none).1.length =
        [(dfaS, 1, PNode.mk 256 none (some []))].length
      ∧ Parser.pop gS noneConvert (dfaS, 2, PNode.mk 256 none (some []))
          [(dfaS, 1, PNode.mk 256 none (some []))] none =
          ([(dfaS, 1, PNode.mk 256 none (some []))], none))
    ∧ Parser.pop gS idConvert (dfaS, 2, PNode.mk 256 none (some [])) [] none =
        ([], some (PNode.mk 256 none (some [])))
    ∧ Parser.pop gS idConvert (dfaS, 2, PNode.mk 256 none (some []))
        [(dfaS, 1, PNode.mk 256 none (some []))] none =
        ([(dfaS, 1, (PNode.mk 256 none (some [])).appendChild
            (PNode.mk 256 none (some [])))], none) :=
  ⟨⟨(c4_pop_semantics gS noneConvert (dfaS, 2, PNode.mk 256 none (some []))
        [(dfaS, 1, PNode.mk 256 none (some []))] none).1,
    (c4_pop_semantics gS noneConvert (dfaS, 2, PNode.mk 256 none (some []))
        [(dfaS, 1, PNode.mk 256 none (some []))] none).2.1 rfl⟩,
   (c4_pop_semantics gS idConvert (dfaS, 2, PNode.mk 256 none (some [])) [] none).2.2.1
      (PNode.mk 256 none (some [])) rfl rfl,
   (c4_pop_semantics gS idConvert (dfaS, 2, PNode.mk 256 none (some []))
        [(dfaS, 1, PNode.mk 256 none (some []))] none).2.2.2
      (PNode.mk 256 none (some [])) dfaS 1 (PNode.mk 256 none (some [])) [] rfl rfl⟩

/-- C6: the engine is deterministic — two parsers over equal grammars and
equal callbacks, reset by `setup` and fed equal token sequences with equal
fuel, produce identical run results (flags, final stack and root tree),
whatever previous states the two parsers were in. -/
theorem c6_determinism :
    ∀ (g1 g2 : Grammar) (c1 c2 : Convert) (f1 f2 : Nat)
      (toks1 toks2 : List (Nat × Nat × Nat)) (st1 st2 : Option Nat)
      (p1 p2 : PState),
      g1 = g2 → c1 = c2 → f1 = f2 → toks1 = toks2 → st1 = st2 →
      runTokens g1 c1 f1 toks1 (Parser.setup g1 p1 st1) =
        runTokens g2 c2 f2 toks2 (Parser.setup g2 p2 st2) := by
  intro g1 g2 c1 c2 f1 f2 toks1 toks2 st1 st2 p1 p2 hg hc hf ht hs
  subst hg; subst hc; subst hf; subst ht; subst hs
  rfl

theorem c6_witness :
    runTokens gS idConvert 3 toksC1 (Parser.setup gS freshState none) =
      runTokens gS idConvert 3 toksC1 (Parser.setup gS ⟨[], some treeC1⟩ none) :=
  c6_determinism gS gS idConvert idConvert 3 3 toksC1 toksC1 none none
    freshState ⟨[], some treeC1⟩ rfl rfl rfl rfl rfl

/-- C7: `setup` resets the parser to exactly one frame — the requested
symbol's DFA at state 0 with a fresh empty nonterminal node — and clears any
previous result, the start symbol defaulting to the grammar's; consequently a
run after `setup` is independent of whatever state (e.g. a failed parse) the
parser was in before, so it matches a fresh parser's run. -/
theorem c7_setup_reset :
    (∀ (g : Grammar) (prev : PState) (st : Nat),
      Parser.setup g prev (some st) =
        ⟨[(g.dfas st, 0, PNode.mk st none (some []))], none⟩)
    ∧ (∀ (g : Grammar) (prev : PState),
      Parser.setup g prev none =
        ⟨[(g.dfas g.start, 0, PNode.mk g.start none (some []))], none⟩)
    ∧ (∀ (g : Grammar) (c : Convert) (fuel : Nat)
        (toks : List (Nat × Nat × Nat)) (st : Option Nat) (prev1 prev2 : PState),
      runTokens g c fuel toks (Parser.setup g prev1 st) =
        runTokens g c fuel toks (Parser.setup g prev2 st)) :=
  ⟨fun _ _ _ => rfl, fun _ _ => rfl, fun _ _ _ _ _ _ _ => rfl⟩

/-- C8: on an arc whose label equals the passed label id, the engine asserts
that the label table maps it to a token type: the scan demands the assertion
failure only if the table value is ≥ 256; if the caller's label id denotes a
token type (< 256) the assertion branch is unreachable for any fuel, state
and callback; and when the scan does demand it, `addtoken` fails with the
assertion failure rather than raising a `ParseError`. -/
theorem c8_assert_guard :
    (∀ (g : Grammar) (il : Nat) (arcs : List Arc),
      scanArcs g arcs il = .assertFail → 256 ≤ g.labels il)
    ∧ (∀ (g : Grammar) (c : Convert) (t o il : Nat), g.labels il < 256 →
        ∀ (fuel : Nat) (s s' : PState),
          Parser.addtoken g c t o il fuel s ≠ .assertFail s')
    ∧ (∀ (g : Grammar) (c : Convert) (t o il fuel : Nat) (dfa : DFA)
        (state : Nat) (node : PNode) (rest : List Frame) (root : Option PNode),
        scanArcs g (dfa.states.getD state []) il = .assertFail →
        Parser.addtoken g c t o il (fuel + 1) ⟨(dfa, state, node) :: rest, root⟩ =
          .assertFail ⟨(dfa, state, node) :: rest, root⟩) :=
  ⟨fun g il arcs h => scanArcs_assert_ge g il arcs h,
   fun g c t o il hlt fuel s s' => addtoken_no_assert g c t o il hlt fuel s s',
   fun g c t o il fuel dfa state node rest root h =>
     addtoken_assert g c t o il fuel dfa state node rest root h⟩

theorem c8_witness :
    (256 ≤ gA.labels 4)
    ∧ Parser.addtoken g2 idConvert 3 0 3 2 st2 ≠ .assertFail st2
    ∧ Parser.addtoken gA idConvert 4 0 4 1
        ⟨[(dfaA, 0, PNode.mk 256 none (some []))], none⟩ =
        .assertFail ⟨[(dfaA, 0, PNode.mk 256 none (some []))], none⟩ :=
  ⟨c8_assert_guard.1 gA 4 [(4, 0)] rfl,
   c8_assert_guard.2.1 g2 idConvert 3 0 3 (by decide) 2 st2 st2,
   c8_assert_guard.2.2 gA idConvert 4 0 4 0 dfaA 0
      (PNode.mk 256 none (some [])) [] none rfl⟩

/-- C9: when `addtoken` raises "too much input", the pop that emptied the
stack has already run: the error state has an empty stack and its `rootnode`
holds the conversion of the popped root node (or keeps the previous value if
the callback discarded it), so the finished tree of the already-complete
parse remains retrievable despite the error. -/
theorem c9_toomuch_root :
    ∀ (g : Grammar) (c : Convert) (t o il fuel : Nat) (s : PState)
      (e : ParseError) (s' : PState),
      Parser.addtoken g c t o il fuel s = .err e s' →
      e.msg = "too much input" →
      s'.stack = [] ∧ ∃ nd, s'.rootnode = convertedOr g c nd s.rootnode := by
  intro g c t o il fuel s e s' h hmsg
  exact addtoken_toomuch_root g c t o il fuel s e s' h hmsg

theorem c9_witness :
    (PState.stack ⟨[], some (PNode.mk 256 none (some [PNode.mk 3 (some 0) none]))⟩ = []
      ∧ ∃ nd, PState.rootnode
          ⟨[], some (PNode.mk 256 none (some [PNode.mk 3 (some 0) none]))⟩ =
          convertedOr g2 idConvert nd
            (PState.rootnode
              ⟨[(dfaS2, 1, PNode.mk 256 none (some [PNode.mk 3 (some 0) none]))], none⟩)) :=
  c9_toomuch_root g2 idConvert 3 1 3 2
    ⟨[(dfaS2, 1, PNode.mk 256 none (some [PNode.mk 3 (some 0) none]))], none⟩
    ⟨"too much input", 3, 1⟩
    ⟨[], some (PNode.mk 256 none (some [PNode.mk 3 (some 0) none]))⟩ rfl rfl

/-- C10: the boolean result (and the whole control outcome) of `addtoken`
does not depend on the conversion callback, so a callback that discards the
root node on the final pop still lets the parse complete with true — but
`rootnode` then remains absent: completion does not guarantee that a root is
available. -/
theorem c10_discard_root :
    (∀ (g : Grammar) (c1 c2 : Convert) (t o il fuel : Nat) (s1 s2 : PState),
      eraseStack s1.stack = eraseStack s2.stack →
      ctrl (Parser.addtoken g c1 t o il fuel s1) =
        ctrl (Parser.addtoken g c2 t o il fuel s2))
    ∧ (∀ (g : Grammar) (t o il fuel : Nat) (s s' : PState),
      s.rootnode = none →
      Parser.addtoken g noneConvert t o il fuel s = .ok true s' →
      s'.rootnode = none) := by
  constructor
  · intro g c1 c2 t o il fuel s1 s2 he
    exact addtoken_ctrl_congr g c1 c2 t o il fuel s1 s2 he
  · intro g t o il fuel s s' hroot h
    obtain ⟨nd, hnd⟩ := addtoken_ok_true_root g noneConvert t o il fuel s s' h
    rw [hnd, hroot]
    rfl

theorem c10_witness :
    ctrl (Parser.addtoken gS noneConvert 3 1 3 2 stS) =
      ctrl (Parser.addtoken gS idConvert 3 1 3 2 stS)
    ∧ PState.rootnode ⟨[], none⟩ = none :=
  ⟨c10_discard_root.1 gS noneConvert idConvert 3 1 3 2 stS stS rfl,
   c10_discard_root.2 gS 3 1 3 2 stS ⟨[], none⟩ rfl rfl⟩


/-! ### C5: termination and iteration count of the retry loop -/

/-- With the cyclic table `gA` and label 1, every iteration of the retry loop
pushes the nonterminal again: every fuel bound is exhausted. -/
theorem addtoken_gA_timeout :
    ∀ (fuel : Nat) (node : PNode) (rest : List Frame) (root : Option PNode),
      Parser.addtoken gA idConvert 1 0 1 fuel ⟨(dfaA, 0, node) :: rest, root⟩ =
        .timeout := by
  intro fuel
  induction fuel with
  | zero => intro node rest root; rfl
  | succ fuel ih =>
    intro node rest root
    rw [addtoken_push gA idConvert 1 0 1 fuel dfaA 0 node rest root 256 0 rfl]
    exact ih (PNode.mk 256 (some 0) (some [])) ((dfaA, 0, node) :: rest) root

theorem popAccepting_cons_noacc (g : Grammar) (c : Convert) (dfa : DFA)
    (st : Nat) (nd : PNode) (rest : List Frame) (root : Option PNode)
    (h : acceptOnly dfa st = false) :
    popAccepting g c ((dfa, st, nd) :: rest) root =
      (false, (dfa, st, nd) :: rest, root) := by
  simp [popAccepting, popAcceptA, h]

/-- One `a` token fed to `gT` in the state after `k + 1` earlier copies of
`a` pushes one more `T` frame and shifts, using two retry-loop iterations. -/
theorem addtoken_gT_stepA (k : Nat) :
    Parser.addtoken gT idConvert 1 0 1 2 (stateT k) = .ok false (stateT (k + 1)) := by
  show Parser.addtoken gT idConvert 1 0 1 (1 + 1)
      ⟨(dfaT, 1, tNode) :: (List.replicate k (dfaT, 2, tNode) ++ [sFrame]), none⟩ =
      .ok false (stateT (k + 1))
  rw [addtoken_push gT idConvert 1 0 1 1 dfaT 1 tNode
      (List.replicate k (dfaT, 2, tNode) ++ [sFrame]) none 257 2 rfl]
  show Parser.addtoken gT idConvert 1 0 1 (0 + 1)
      ⟨(dfaT, 0, PNode.mk 257 (some 0) (some [])) :: ((dfaT, 2, tNode) ::
        (List.replicate k (dfaT, 2, tNode) ++ [sFrame])), none⟩ =
      .ok false (stateT (k + 1))
  rw [addtoken_shift gT idConvert 1 0 1 0 dfaT 0 (PNode.mk 257 (some 0) (some []))
      ((dfaT, 2, tNode) :: (List.replicate k (dfaT, 2, tNode) ++ [sFrame])) none 1 rfl]
  have hsh : Parser.shift gT idConvert 1 0 1
      ((dfaT, 0, PNode.mk 257 (some 0) (some [])) :: ((dfaT, 2, tNode) ::
        (List.replicate k (dfaT, 2, tNode) ++ [sFrame]))) =
      (dfaT, 1, tNode) :: ((dfaT, 2, tNode) ::
        (List.replicate k (dfaT, 2, tNode) ++ [sFrame])) := rfl
  rw [hsh, popAccepting_cons_noacc gT idConvert dfaT 1 tNode
      ((dfaT, 2, tNode) :: (List.replicate k (dfaT, 2, tNode) ++ [sFrame])) none rfl]
  rfl

theorem runTokens_gT_a (m : Nat) :
    ∀ k : Nat, runTokens gT idConvert 2 (List.replicate m (1, 0, 1)) (stateT k) =
      .ok (List.replicate m false) (stateT (k + m)) := by
  induction m with
  | zero => intro k; rfl
  | succ m ih =>
    intro k
    show runTokens gT idConvert 2 ((1, 0, 1) :: List.replicate m (1, 0, 1)) (stateT k) =
      .ok (List.replicate (m + 1) false) (stateT (k + (m + 1)))
    rw [runTokens]
    simp only [addtoken_gT_stepA k, ih (k + 1)]
    have harith : k + 1 + m = k + (m + 1) := by omega
    rw [harith]
    rfl

theorem addtoken_gT_first :
    Parser.addtoken gT idConvert 1 0 1 2 (Parser.setup gT freshState none) =
      .ok false (stateT 0) := rfl

theorem wrapT_treeT (m : Nat) : ∀ k, wrapT m (treeT k) = treeT (m + k) := by
  induction m with
  | zero => intro k; show treeT k = treeT (0 + k); rw [Nat.zero_add]
  | succ m ih =>
    intro k
    show wrapT m (PNode.mk 257 (some 0) (some [aLeaf, treeT k])) = treeT (m + 1 + k)
    have h1 : PNode.mk 257 (some 0) (some [aLeaf, treeT k]) = treeT (k + 1) := rfl
    rw [h1, ih (k + 1)]
    have harith : m + (k + 1) = m + 1 + k := by omega
    rw [harith]

/-- The `z` token fed above `m` suspended `T` frames pops them all, shifts,
and completes, consuming `m + 2` retry-loop iterations. -/
theorem addtoken_gT_zchain :
    ∀ (m : Nat) (st : Nat) (nd : PNode),
      scanArcs gT (dfaT.states.getD st []) 3 = .nomatch →
      (0, st) ∈ dfaT.states.getD st [] →
      Parser.addtoken gT idConvert 3 0 3 (m + 1 + 1)
        ⟨(dfaT, st, nd) :: (List.replicate m (dfaT, 2, tNode) ++ [sFrame]), none⟩ =
        .ok true ⟨[], some (PNode.mk 256 none
          (some [wrapT m nd, PNode.mk 3 (some 0) none]))⟩ := by
  intro m
  induction m with
  | zero =>
    intro st nd hscan hmem
    show Parser.addtoken gT idConvert 3 0 3 (0 + 1 + 1)
        ⟨(dfaT, st, nd) :: (sFrame :: []), none⟩ =
        .ok true ⟨[], some (PNode.mk 256 none
          (some [wrapT 0 nd, PNode.mk 3 (some 0) none]))⟩
    rw [addtoken_nomatch_acc_cons gT idConvert 3 0 3 (0 + 1) dfaT st nd sFrame [] none
        hscan hmem]
    have hpop : (Parser.pop gT idConvert (dfaT, st, nd) (sFrame :: []) none).1 =
        [(dfaSz, 1, PNode.mk 256 none (some [nd]))] := rfl
    rw [hpop]
    rw [addtoken_shift gT idConvert 3 0 3 0 dfaSz 1 (PNode.mk 256 none (some [nd]))
        [] none 2 rfl]
    rfl
  | succ m ih =>
    intro st nd hscan hmem
    show Parser.addtoken gT idConvert 3 0 3 ((m + 1 + 1) + 1)
        ⟨(dfaT, st, nd) :: ((dfaT, 2, tNode) ::
          (List.replicate m (dfaT, 2, tNode) ++ [sFrame])), none⟩ =
        .ok true ⟨[], some (PNode.mk 256 none
          (some [wrapT (m + 1) nd, PNode.mk 3 (some 0) none]))⟩
    rw [addtoken_nomatch_acc_cons gT idConvert 3 0 3 (m + 1 + 1) dfaT st nd
        (dfaT, 2, tNode) (List.replicate m (dfaT, 2, tNode) ++ [sFrame]) none hscan hmem]
    have hpop : (Parser.pop gT idConvert (dfaT, st, nd)
        ((dfaT, 2, tNode) :: (List.replicate m (dfaT, 2, tNode) ++ [sFrame])) none).1 =
        (dfaT, 2, PNode.mk 257 (some 0) (some [aLeaf, nd])) ::
          (List.replicate m (dfaT, 2, tNode) ++ [sFrame]) := rfl
    rw [hpop]
    rw [ih 2 (PNode.mk 257 (some 0) (some [aLeaf, nd])) rfl (by decide)]
    rfl

/-- With one unit of fuel fewer, the same `z` call runs out of fuel: its
iteration count really is `m + 2`, growing with the stack depth. -/
theorem addtoken_gT_ztimeout :
    ∀ (m : Nat) (st : Nat) (nd : PNode),
      scanArcs gT (dfaT.states.getD st []) 3 = .nomatch →
      (0, st) ∈ dfaT.states.getD st [] →
      Parser.addtoken gT idConvert 3 0 3 (m + 1)
        ⟨(dfaT, st, nd) :: (List.replicate m (dfaT, 2, tNode) ++ [sFrame]), none⟩ =
        .timeout := by
  intro m
  induction m with
  | zero =>
    intro st nd hscan hmem
    show Parser.addtoken gT idConvert 3 0 3 (0 + 1)
        ⟨(dfaT, st, nd) :: (sFrame :: []), none⟩ = .timeout
    rw [addtoken_nomatch_acc_cons gT idConvert 3 0 3 0 dfaT st nd sFrame [] none
        hscan hmem]
    rfl
  | succ m ih =>
    intro st nd hscan hmem
    show Parser.addtoken gT idConvert 3 0 3 ((m + 1) + 1)
        ⟨(dfaT, st, nd) :: ((dfaT, 2, tNode) ::
          (List.replicate m (dfaT, 2, tNode) ++ [sFrame])), none⟩ = .timeout
    rw [addtoken_nomatch_acc_cons gT idConvert 3 0 3 (m + 1) dfaT st nd
        (dfaT, 2, tNode) (List.replicate m (dfaT, 2, tNode) ++ [sFrame]) none hscan hmem]
    have hpop : (Parser.pop gT idConvert (dfaT, st, nd)
        ((dfaT, 2, tNode) :: (List.replicate m (dfaT, 2, tNode) ++ [sFrame])) none).1 =
        (dfaT, 2, PNode.mk 257 (some 0) (some [aLeaf, nd])) ::
          (List.replicate m (dfaT, 2, tNode) ++ [sFrame]) := rfl
    rw [hpop]
    exact ih 2 (PNode.mk 257 (some 0) (some [aLeaf, nd])) rfl (by decide)

/-- C5, counterexample: the retry loop does not terminate for every grammar —
with the table `gA` (whose one state has a nonterminal arc to itself and whose
first set contains the fed label), `addtoken` pushes forever from the very
state `setup` produces. -/
theorem c5_counterexample :
    addtokenDiverges gA idConvert 1 0 1 (Parser.setup gA freshState none) :=
  fun fuel => addtoken_gA_timeout fuel (PNode.mk 256 none (some [])) [] none

/-- C5 (amended): the retry loop of a single `addtoken` call terminates for
well-behaved grammars but its iteration count is bounded by the current stack
depth plus a grammar-dependent constant, not by a function of the grammar
alone: for the grammar `S -> T 'z'; T -> 'a' T | 'a'`, after consuming
`n + 1` copies of `a` (each call returning false), the call consuming `z`
completes — returns true with the full tree — with `n + 2` iterations of
fuel, but exhausts `n + 1` iterations of fuel, so the per-token iteration
count grows linearly with the input consumed so far.  (For grammars with a
cyclic first-set descent, the loop need not terminate at all.) -/
theorem c5_iterations :
    ∀ n : Nat,
      runTokens gT idConvert 2 (List.replicate (n + 1) (1, 0, 1))
          (Parser.setup gT freshState none) =
        .ok (List.replicate (n + 1) false) (stateT n)
      ∧ Parser.addtoken gT idConvert 3 0 3 (n + 2) (stateT n) =
          .ok true ⟨[], some (rootT n)⟩
      ∧ Parser.addtoken gT idConvert 3 0 3 (n + 1) (stateT n) = .timeout := by
  intro n
  refine ⟨?_, ?_, ?_⟩
  · have h0 := runTokens_gT_a n 0
    rw [Nat.zero_add] at h0
    show runTokens gT idConvert 2 ((1, 0, 1) :: List.replicate n (1, 0, 1))
        (Parser.setup gT freshState none) =
      .ok (false :: List.replicate n false) (stateT n)
    rw [runTokens]
    simp only [addtoken_gT_first, h0]
  · have h := addtoken_gT_zchain n 1 tNode rfl (by decide)
    have hw : wrapT n tNode = treeT n := by
      have h2 := wrapT_treeT n 0
      rw [Nat.add_zero] at h2
      exact h2
    rw [hw] at h
    exact h
  · exact addtoken_gT_ztimeout n 1 tNode rfl (by decide)


theorem c5_witness :
    runTokens gT idConvert 2 (List.replicate 3 (1, 0, 1))
        (Parser.setup gT freshState none) =
      .ok (List.replicate 3 false) (stateT 2)
    ∧ Parser.addtoken gT idConvert 3 0 3 4 (stateT 2) =
        .ok true ⟨[], some (rootT 2)⟩
    ∧ Parser.addtoken gT idConvert 3 0 3 3 (stateT 2) = .timeout :=
  c5_iterations 2

end Pgen2
